import Mathlib

/-!
Shallow embedding of the PromiPoints ledger and its operations, translated
from the TypeScript source (`src/utils/storage.ts`, `src/components/AssignPoints.tsx`,
`src/components/AdminSettings.tsx`, `src/components/Login.tsx`, `src/App.tsx`).

The browser key-value store is modelled as explicit lists carried in a
`Ledger` record; `localStorage` keys that are absent correspond to the empty
list.  JavaScript numbers that only ever hold integers are modelled as `Int`.
The ambient current month (`getCurrentMonth()`) and `Date.now()` are passed as
explicit parameters, since their runtime values are environmental.
-/

/-- `User` from `src/types` — role is one of the three string literals. -/
inductive Role where
  | employee
  | people
  | superadmin
deriving DecidableEq, Repr

/-- `User` record from `src/types`. -/
structure User where
  id : String
  name : String
  email : String
  role : Role
  department : String
deriving DecidableEq, Repr

/-- `MonthlyAllocation` record from `src/types`. -/
structure Allocation where
  userId : String
  month : String
  pointsRemaining : Int
  pointsReceived : Int
deriving DecidableEq, Repr

/-- `PointAssignment` record from `src/types`; `message` is optional. -/
structure Assignment where
  id : String
  fromUserId : String
  toUserId : String
  points : Int
  category : String
  message : Option String
  timestamp : Int
  month : String
deriving DecidableEq, Repr

/-- The persistent collections of the store (`storage.ts`), minus the
configuration singleton which is modelled separately. -/
structure Ledger where
  users : List User
  allocations : List Allocation
  assignments : List Assignment
deriving DecidableEq, Repr

/-- `storage.getUserAllocation`: first allocation whose `userId` and `month`
match, `null` (here `none`) otherwise (`storage.ts` lines 105-108). -/
def getUserAllocation : List Allocation → String → String → Option Allocation
  | [], _, _ => none
  | a :: rest, u, m =>
    if a.userId = u ∧ a.month = m then some a else getUserAllocation rest u m

/-- `storage.updateAllocation` (`storage.ts` lines 110-123): replace the first
record with the same `(userId, month)` key, or push at the end when absent. -/
def updateAllocation : List Allocation → Allocation → List Allocation
  | [], v => [v]
  | a :: rest, v =>
    if a.userId = v.userId ∧ a.month = v.month then v :: rest
    else a :: updateAllocation rest v

/-- `storage.addAssignment` (`storage.ts` lines 135-139): push at the end. -/
def addAssignment (assignments : List Assignment) (a : Assignment) : List Assignment :=
  assignments ++ [a]

/-- `storage.ensureMonthlyAllocation` (`storage.ts` lines 146-162), with the
current month passed explicitly: return the existing record, or create one
with `pointsRemaining = 10, pointsReceived = 0`. -/
def ensureMonthlyAllocation (allocs : List Allocation) (userId month : String) :
    Allocation × List Allocation :=
  match getUserAllocation allocs userId month with
  | some a => (a, allocs)
  | none =>
    let a : Allocation := ⟨userId, month, 10, 0⟩
    (a, updateAllocation allocs a)

/-- `availablePoints` as computed in `AssignPoints.tsx` line 56:
`allocation?.pointsRemaining || 0`. -/
def availablePointsOf (allocs : List Allocation) (userId month : String) : Int :=
  match getUserAllocation allocs userId month with
  | some a => a.pointsRemaining
  | none => 0

/- ### The point-assignment dialog (`AssignPoints.tsx`) -/

/-- `CategoryConfig` from `src/types`. -/
structure CategoryConfig where
  name : String
  enabled : Bool
deriving DecidableEq, Repr

/-- `enabledCategories` (`AssignPoints.tsx` line 47):
`systemConfig.categories.filter(cat => cat.enabled)`. -/
def enabledCategoriesOf (categories : List CategoryConfig) : List CategoryConfig :=
  categories.filter (fun cat => cat.enabled)

/-- The error record built by `validateForm` (`AssignPoints.tsx` lines 65-82),
as an association list from error key to message.  A missing selected user,
an empty category, and a points request above `availablePoints` each add one
entry. -/
def formErrors (selectedUser : Option String) (category : String)
    (points availablePoints : Int) : List (String × String) :=
  (if selectedUser = none then [("user", "Debes seleccionar un colaborador")] else []) ++
  (if category = "" then [("category", "Debes seleccionar una categoría")] else []) ++
  (if points > availablePoints then
    [("points", "Solo tienes " ++ toString availablePoints ++ " puntos disponibles")]
   else [])

/-- `validateForm` returns `true` exactly when the error record is empty
(`Object.keys(newErrors).length === 0`). -/
def validateForm (selectedUser : Option String) (category : String)
    (points availablePoints : Int) : Bool :=
  formErrors selectedUser category points availablePoints = []

/-- The in-memory state of the `AssignPoints` dialog: the `useState` hooks of
the component.  `availablePoints` is captured from the sender's allocation at
mount time. -/
structure AssignState where
  selectedUser : Option String
  points : Int
  category : String
  message : String
  availablePoints : Int
  showConfirmation : Bool
  errors : List (String × String)
deriving DecidableEq, Repr

/-- Initial hook values of the dialog (`AssignPoints.tsx` lines 34-43 and the
mount effect lines 49-57): no selection, 1 point, empty category and message,
`availablePoints` read from the sender's allocation. -/
def initAssignState (avail : Int) : AssignState :=
  { selectedUser := none, points := 1, category := "", message := ""
    availablePoints := avail, showConfirmation := false, errors := [] }

/-- `handlePreview` (`AssignPoints.tsx` lines 84-88): on successful validation
open the confirmation screen, otherwise record the errors.  It performs no
storage access, so the ledger is returned unchanged. -/
def handlePreview (s : AssignState) (st : Ledger) : AssignState × Ledger :=
  if validateForm s.selectedUser s.category s.points s.availablePoints then
    ({ s with showConfirmation := true }, st)
  else
    ({ s with errors := formErrors s.selectedUser s.category s.points s.availablePoints }, st)

/-- The `message.trim() || undefined` computation on the optional message. -/
def trimmedMessage (message : String) : Option String :=
  if message.trim = "" then none else some message.trim

/-- `handleSubmit` (`AssignPoints.tsx` lines 90-133), with the fresh assignment
id, timestamp and current month passed as parameters.  Guard: return unchanged
when no user is selected or the category is empty.  Otherwise: append the
assignment, then decrement the sender's `pointsRemaining` when the sender has
an allocation record, then increment the receiver's `pointsReceived` when the
receiver has one. -/
def handleSubmit (st : Ledger) (currentUserId : String) (selectedUser : Option String)
    (points : Int) (category message id : String) (ts : Int) (month : String) : Ledger :=
  match selectedUser with
  | none => st
  | some toUserId =>
    if category = "" then st
    else
      let asg : Assignment :=
        { id := id, fromUserId := currentUserId, toUserId := toUserId
          points := points, category := category, message := trimmedMessage message
          timestamp := ts, month := month }
      let st1 := { st with assignments := addAssignment st.assignments asg }
      let st2 :=
        match getUserAllocation st1.allocations currentUserId month with
        | some sa =>
          let sa2 := { sa with pointsRemaining := sa.pointsRemaining - points }
          { st1 with allocations := updateAllocation st1.allocations sa2 }
        | none => st1
      match getUserAllocation st2.allocations toUserId month with
      | some ra =>
        let ra2 := { ra with pointsReceived := ra.pointsReceived + points }
        { st2 with allocations := updateAllocation st2.allocations ra2 }
      | none => st2

/- ### Admin point reset (`AdminSettings.tsx` lines 151-185) -/

/-- The per-user mutation of `handleResetPoints`: total reset restores the
full budget and zeroes received points; partial reset only zeroes received
points. -/
def resetAlloc (a : Allocation) (total : Bool) : Allocation :=
  if total then { a with pointsRemaining := 10, pointsReceived := 0 }
  else { a with pointsReceived := 0 }

/-- The `selectedUsers.forEach` loop of `handleResetPoints`: each user's
record is looked up in the allocation list fetched once before the loop
(`orig`), mutated, and written back through `storage.updateAllocation`, which
re-reads the current store (`cur`). -/
def applyResets (orig : List Allocation) (sel : List String) (total : Bool)
    (month : String) (cur : List Allocation) : List Allocation :=
  match sel with
  | [] => cur
  | uid :: rest =>
    let next :=
      match getUserAllocation orig uid month with
      | some a => updateAllocation cur (resetAlloc a total)
      | none => cur
    applyResets orig rest total month next

/-- `handleResetPoints` (`AdminSettings.tsx` lines 151-185): early return when
no user is selected; otherwise reset each selected user's allocation for the
current month, and on a total reset drop every current-month assignment that
involves a selected user. -/
def handleResetPoints (st : Ledger) (sel : List String) (total : Bool)
    (month : String) : Ledger :=
  if sel = [] then st
  else
    { st with
      allocations := applyResets st.allocations sel total month st.allocations
      assignments :=
        if total then
          st.assignments.filter (fun a =>
            decide (a.month ≠ month) ||
              (!(sel.contains a.toUserId) && !(sel.contains a.fromUserId)))
        else st.assignments }

/- ### Login (`Login.tsx` lines 26-59) -/

/-- Model of the JavaScript `String.prototype.endsWith`. -/
def strEndsWith (s suffix : String) : Bool :=
  suffix.data.isSuffixOf s.data

/-- Model of the JavaScript `String.prototype.toLowerCase`, character by
character (the stored emails are ASCII). -/
def lowerStr (s : String) : String :=
  ⟨s.data.map Char.toLower⟩

/-- `handleLogin` (`Login.tsx` lines 26-59): find the user by
case-insensitive email; a matching superadmin logs in without the domain
check; otherwise a non-corporate email or an unknown user produces an inline
error message; a known corporate user logs in.  Logging in runs
`storage.ensureMonthlyAllocation` for the user.  The result is the logged-in
user (the `onLogin` argument), the allocation list after the call, and the
inline error message if any. -/
def handleLogin (users : List User) (allocs : List Allocation) (month email : String) :
    Option User × List Allocation × Option String :=
  let found := users.find? (fun u => lowerStr u.email == lowerStr email)
  match found with
  | some u =>
    if u.role = Role.superadmin then
      (some u, (ensureMonthlyAllocation allocs u.id month).2, none)
    else if !(strEndsWith email "@grupoprominente.com") then
      (none, allocs, some "Debes usar tu correo corporativo (@grupoprominente.com)")
    else
      (some u, (ensureMonthlyAllocation allocs u.id month).2, none)
  | none =>
    if !(strEndsWith email "@grupoprominente.com") then
      (none, allocs, some "Debes usar tu correo corporativo (@grupoprominente.com)")
    else
      (none, allocs,
        some "Usuario no encontrado en la nómina. Contacta a People & Culture para obtener acceso.")

/- ### System configuration (`storage.ts` lines 16-68 and 165-182) -/

/-- `LoginContent` from `src/types`. -/
structure LoginContent where
  title : String
  subtitle : String
  description : String
  helpEmail : String
deriving DecidableEq, Repr

/-- `OnboardingStep` from `src/types`. -/
structure OnboardingStep where
  title : String
  description : String
  details : String
deriving DecidableEq, Repr

/-- `EmailNotificationConfig` from `src/types`. -/
structure EmailNotificationConfig where
  enabled : Bool
  notifyEmployee : Bool
  notifyPeople : Bool
  peopleEmails : List String
  smtpProvider : String
  smtpHost : String
  smtpPort : Int
  smtpUser : String
  smtpPassword : String
  fromEmail : String
  fromName : String
deriving DecidableEq, Repr

/-- A stored configuration record as parsed from the store.  The three fields
that `getSystemConfig` back-fills are optional (`none` models a falsy
`undefined`/`null` in an older saved record); `categories` is carried
through untouched. -/
structure StoredSystemConfig where
  categories : List CategoryConfig
  loginContent : Option LoginContent
  onboardingSteps : Option (List OnboardingStep)
  emailNotifications : Option EmailNotificationConfig
deriving DecidableEq, Repr

/-- `getDefaultConfig` (`storage.ts` lines 16-68), with every field present. -/
def getDefaultConfig : StoredSystemConfig :=
  { categories :=
      [ ⟨"Trabajo en equipo", true⟩, ⟨"Innovación", true⟩, ⟨"Liderazgo", true⟩,
        ⟨"Colaboración", true⟩, ⟨"Compromiso", true⟩, ⟨"Excelencia", true⟩,
        ⟨"Actitud positiva", true⟩, ⟨"Comunicación efectiva", true⟩ ]
    loginContent := some
      { title := "PromiPoints", subtitle := "Grupo Prominente"
        description := "Sistema de reconocimiento de Grupo Prominente"
        helpEmail := "people@grupoprominente.com" }
    onboardingSteps := some
      [ { title := "¡Bienvenido a PromiPoints!"
          description := "Sistema de reconocimiento entre colaboradores de Grupo Prominente"
          details := "Reconoce el trabajo excepcional de tus compañeros y fortalece la cultura organizacional." },
        { title := "10 Puntos Mensuales"
          description := "Cada mes recibes 10 PromiPoints para compartir"
          details := "Los puntos no utilizados expiran al final del mes, así que ¡no olvides reconocer a tus compañeros!" },
        { title := "Asignación Anónima"
          description := "Reconoce valores organizacionales de forma privada"
          details := "Tus compañeros verán los puntos recibidos y la categoría, pero no sabrán quién los envió." },
        { title := "¡Estás listo!"
          description := "Comienza a reconocer el gran trabajo de tu equipo"
          details := "Haz clic en \"Asignar PromiPoints\" para dar tu primer reconocimiento." } ]
    emailNotifications := some
      { enabled := false, notifyEmployee := true, notifyPeople := false
        peopleEmails := [], smtpProvider := "gmail", smtpHost := "smtp.gmail.com"
        smtpPort := 587, smtpUser := "", smtpPassword := ""
        fromEmail := "noreply@grupoprominente.com"
        fromName := "PromiPoints - Grupo Prominente" } }

/-- `storage.getSystemConfig` (`storage.ts` lines 165-182): parse the stored
record (default when the key is absent), then back-fill each of
`onboardingSteps`, `loginContent` and `emailNotifications` from the default
configuration when the stored field is missing. -/
def getSystemConfig (data : Option StoredSystemConfig) : StoredSystemConfig :=
  let config := match data with | some c => c | none => getDefaultConfig
  let defaultConfig := getDefaultConfig
  let c1 :=
    if config.onboardingSteps = none then
      { config with onboardingSteps := defaultConfig.onboardingSteps }
    else config
  let c2 :=
    if c1.loginContent = none then
      { c1 with loginContent := defaultConfig.loginContent }
    else c1
  if c2.emailNotifications = none then
    { c2 with emailNotifications := defaultConfig.emailNotifications }
  else c2

/- ### Reporting aggregator (`App.tsx` lines 117-161) -/

/-- One row of the People dashboard report (`App.tsx` lines 126-146).
`categoryBreakdown` keeps the JavaScript object's key insertion order as an
association list. -/
structure ReportRow where
  userId : String
  name : String
  email : String
  department : String
  pointsReceived : Int
  recognitionCount : Nat
  pointsGiven : Int
  categoryBreakdown : List (String × Int)
deriving DecidableEq, Repr

/-- `acc[key] = (acc[key] || 0) + p` on a JavaScript object: update the
existing key in place, or append a new key. -/
def bump : List (String × Int) → String → Int → List (String × Int)
  | [], c, p => [(c, p)]
  | (k, v) :: rest, c, p =>
    if k = c then (k, v + p) :: rest else (k, v) :: bump rest c p

/-- The row computed for one user inside `loadData` (`App.tsx` lines 126-146).
`curAsg` is the list of current-month assignments. -/
def reportRow (curAsg : List Assignment) (allocs : List Allocation) (month : String)
    (u : User) : ReportRow :=
  let received := curAsg.filter (fun a => decide (a.toUserId = u.id))
  let totalPoints := (received.map (fun a => a.points)).sum
  let alloc := getUserAllocation allocs u.id month
  { userId := u.id, name := u.name, email := u.email, department := u.department
    pointsReceived := totalPoints
    recognitionCount := received.length
    pointsGiven := match alloc with | some a => 10 - a.pointsRemaining | none => 0
    categoryBreakdown := received.foldl (fun acc a => bump acc a.category a.points) [] }

/-- `loadData` (`App.tsx` lines 117-161): the report rows for all users and
the per-category totals over the current month's assignments. -/
def loadData (users : List User) (assignments : List Assignment)
    (allocs : List Allocation) (month : String) :
    List ReportRow × List (String × Int) :=
  let cur := assignments.filter (fun a => decide (a.month = month))
  (users.map (reportRow cur allocs month),
   cur.foldl (fun acc a => bump acc a.category a.points) [])

/- ### Demo seed (`storage.ts` lines 190-328, `initializeDemoData`) -/

/-- The nine demo users seeded on first load. -/
def demoUsers : List User :=
  [ ⟨"admin", "Admin Sistema", "admin@sistema.local", Role.superadmin, "Administración"⟩,
    ⟨"1", "María García", "maria.garcia@grupoprominente.com", Role.employee, "Desarrollo"⟩,
    ⟨"2", "Juan Pérez", "juan.perez@grupoprominente.com", Role.employee, "Marketing"⟩,
    ⟨"3", "Ana Rodríguez", "ana.rodriguez@grupoprominente.com", Role.people, "People & Culture"⟩,
    ⟨"4", "Carlos López", "carlos.lopez@grupoprominente.com", Role.employee, "Ventas"⟩,
    ⟨"5", "Laura Martínez", "laura.martinez@grupoprominente.com", Role.employee, "Desarrollo"⟩,
    ⟨"6", "Diego Sánchez", "diego.sanchez@grupoprominente.com", Role.employee, "Operaciones"⟩,
    ⟨"7", "Sofia Torres", "sofia.torres@grupoprominente.com", Role.employee, "Marketing"⟩,
    ⟨"8", "Roberto Flores", "roberto.flores@grupoprominente.com", Role.employee, "Ventas"⟩ ]

/-- The four demo assignments, with the ambient current month and `Date.now()`
value passed in. -/
def demoAssignments (month : String) (now : Int) : List Assignment :=
  [ { id := "1", fromUserId := "2", toUserId := "1", points := 3
      category := "Trabajo en equipo"
      message := some "¡Excelente colaboración en el proyecto!"
      timestamp := now - 86400000 * 2, month := month },
    { id := "2", fromUserId := "4", toUserId := "1", points := 2
      category := "Innovación", message := some "Gran idea para mejorar el proceso"
      timestamp := now - 86400000 * 5, month := month },
    { id := "3", fromUserId := "5", toUserId := "2", points := 4
      category := "Liderazgo", message := none
      timestamp := now - 86400000 * 3, month := month },
    { id := "4", fromUserId := "1", toUserId := "4", points := 2
      category := "Colaboración", message := some "Siempre dispuesto a ayudar"
      timestamp := now - 86400000, month := month } ]

/-- The `demoAssignments.forEach` loop at the end of `initializeDemoData`
(`storage.ts` lines 313-326): decrement the sender's remaining points and
increment the receiver's received points, each only when that party's
allocation record exists; each lookup re-reads the current store. -/
def applySeedAssignment (allocs : List Allocation) (asg : Assignment) :
    List Allocation :=
  let a1 :=
    match getUserAllocation allocs asg.fromUserId asg.month with
    | some fa =>
      let fa2 := { fa with pointsRemaining := fa.pointsRemaining - asg.points }
      updateAllocation allocs fa2
    | none => allocs
  match getUserAllocation a1 asg.toUserId asg.month with
  | some ta =>
    let ta2 := { ta with pointsReceived := ta.pointsReceived + asg.points }
    updateAllocation a1 ta2
  | none => a1

/-- The whole of `initializeDemoData` on an empty store: seed the demo users,
ensure an allocation for each, store the demo assignments, then apply each
assignment to the allocation balances. -/
def seedState (month : String) (now : Int) : Ledger :=
  let allocs0 := demoUsers.foldl
    (fun l u => (ensureMonthlyAllocation l u.id month).2) []
  let asgs := demoAssignments month now
  { users := demoUsers
    allocations := asgs.foldl applySeedAssignment allocs0
    assignments := asgs }

/- ### Ledger sums and invariants (spec section 3) -/

/-- Total points of the assignments sent by `u` in month `m`. -/
def sentSum (assignments : List Assignment) (u m : String) : Int :=
  ((assignments.filter (fun a => decide (a.fromUserId = u ∧ a.month = m))).map
    (fun a => a.points)).sum

/-- Total points of the assignments received by `u` in month `m`. -/
def recvSum (assignments : List Assignment) (u m : String) : Int :=
  ((assignments.filter (fun a => decide (a.toUserId = u ∧ a.month = m))).map
    (fun a => a.points)).sum

/-- The spec's ledger invariants, per allocation record: non-negative
remaining budget, `pointsRemaining + Σ sent = 10`, and
`pointsReceived = Σ received`. -/
def LedgerInvariants (s : Ledger) : Prop :=
  ∀ a ∈ s.allocations,
    0 ≤ a.pointsRemaining ∧
    a.pointsRemaining + sentSum s.assignments a.userId a.month = 10 ∧
    a.pointsReceived = recvSum s.assignments a.userId a.month

instance (s : Ledger) : Decidable (LedgerInvariants s) := by
  unfold LedgerInvariants; infer_instance

/-- The weak invariant that survives the admin resets: every allocation
record keeps a non-negative remaining budget. -/
def NonnegRemaining (s : Ledger) : Prop :=
  ∀ a ∈ s.allocations, 0 ≤ a.pointsRemaining

instance (s : Ledger) : Decidable (NonnegRemaining s) := by
  unfold NonnegRemaining; infer_instance

/-- No two allocation records share a `(userId, month)` key. -/
def NoDupKeys (l : List Allocation) : Prop :=
  l.Pairwise (fun a b => ¬(a.userId = b.userId ∧ a.month = b.month))

/-- Every user named by a stored assignment holds an allocation record for
the assignment's month. -/
def PartiesAllocated (s : Ledger) : Prop :=
  ∀ a ∈ s.assignments,
    (getUserAllocation s.allocations a.fromUserId a.month).isSome ∧
    (getUserAllocation s.allocations a.toUserId a.month).isSome

/-- The auxiliary inductive invariant used for the ledger proofs. -/
def GoodInv (s : Ledger) : Prop :=
  NoDupKeys s.allocations ∧ LedgerInvariants s ∧ PartiesAllocated s

/-- The allocation list of the seeded demo store, written out. -/
def seedAllocations (M : String) : List Allocation :=
  [ ⟨"admin", M, 10, 0⟩, ⟨"1", M, 8, 5⟩, ⟨"2", M, 7, 4⟩, ⟨"3", M, 10, 0⟩,
    ⟨"4", M, 8, 2⟩, ⟨"5", M, 6, 0⟩, ⟨"6", M, 10, 0⟩, ⟨"7", M, 10, 0⟩, ⟨"8", M, 10, 0⟩ ]

/- ### The program's ledger-mutating operations as a step relation -/

/-- One user-visible operation on the ledger store, for a fixed current
month.  `transfer` is a submission of the assign-points dialog that passed
`validateForm` (the sender is the logged-in user, the receiver is picked from
the user list with the sender filtered out, and the points value is one of
the four point buttons); `ensure` is `storage.ensureMonthlyAllocation` (run
on login); `resetRecv`/`resetAll` are the two admin reset variants. -/
inductive Step (month : String) : Ledger → Ledger → Prop
  | transfer (st : Ledger) (A B : String) (P : Int) (cat msg id : String) (ts : Int)
      (hA : A ∈ st.users.map User.id)
      (hB : B ∈ st.users.map User.id)
      (hAB : B ≠ A)
      (hP : P = 1 ∨ P = 2 ∨ P = 3 ∨ P = 5)
      (hval : validateForm (some B) cat P (availablePointsOf st.allocations A month) = true) :
      Step month st (handleSubmit st A (some B) P cat msg id ts month)
  | ensure (st : Ledger) (u : String) :
      Step month st { st with allocations := (ensureMonthlyAllocation st.allocations u month).2 }
  | resetRecv (st : Ledger) (sel : List String) :
      Step month st (handleResetPoints st sel false month)
  | resetAll (st : Ledger) (sel : List String) :
      Step month st (handleResetPoints st sel true month)

/-- States reachable from the seeded demo store by the program's operations. -/
inductive Reachable (month : String) (now : Int) : Ledger → Prop
  | init : Reachable month now (seedState month now)
  | step {s t : Ledger} : Reachable month now s → Step month s t → Reachable month now t

/-- The benign operations: transfers whose receiver also holds an allocation
record for the month, and lazy allocation creation — no admin resets. -/
inductive GoodStep (month : String) : Ledger → Ledger → Prop
  | transfer (st : Ledger) (A B : String) (P : Int) (cat msg id : String) (ts : Int)
      (hAB : B ≠ A)
      (hP : P = 1 ∨ P = 2 ∨ P = 3 ∨ P = 5)
      (hval : validateForm (some B) cat P (availablePointsOf st.allocations A month) = true)
      (hRecv : (getUserAllocation st.allocations B month).isSome = true) :
      GoodStep month st (handleSubmit st A (some B) P cat msg id ts month)
  | ensure (st : Ledger) (u : String) :
      GoodStep month st { st with allocations := (ensureMonthlyAllocation st.allocations u month).2 }

/-- States reachable from the seeded demo store by the benign operations. -/
inductive GoodReachable (month : String) (now : Int) : Ledger → Prop
  | init : GoodReachable month now (seedState month now)
  | step {s t : Ledger} :
      GoodReachable month now s → GoodStep month s t → GoodReachable month now t

/- ### The assign-points dialog as an event machine -/

/-- One UI event of the `AssignPoints` dialog, for a fixed category
configuration.  The constructors mirror the component's event handlers:
picking a user from the filtered list (which excludes the logged-in sender),
clearing the selection, clicking one of the four point buttons (enabled only
up to `availablePoints`), picking a category from the select (which lists
only the enabled categories), editing the message, clicking the review
button (`handlePreview`), and going back from the confirmation screen. -/
inductive AStep (categories : List CategoryConfig) (currentUserId : String)
    (st : Ledger) : AssignState → AssignState → Prop
  | selectUser (s : AssignState) (uid : String)
      (huid : uid ∈ st.users.map User.id) (hne : uid ≠ currentUserId) :
      AStep categories currentUserId st s
        { s with selectedUser := some uid, errors := [] }
  | clearUser (s : AssignState) :
      AStep categories currentUserId st s { s with selectedUser := none }
  | setPoints (s : AssignState) (p : Int)
      (hp : p = 1 ∨ p = 2 ∨ p = 3 ∨ p = 5) (hle : ¬ p > s.availablePoints) :
      AStep categories currentUserId st s { s with points := p, errors := [] }
  | setCategory (s : AssignState) (c : String)
      (hc : c ∈ (enabledCategoriesOf categories).map CategoryConfig.name) :
      AStep categories currentUserId st s { s with category := c, errors := [] }
  | setMessage (s : AssignState) (msg : String) :
      AStep categories currentUserId st s { s with message := msg }
  | preview (s : AssignState) :
      AStep categories currentUserId st s (handlePreview s st).1
  | back (s : AssignState) :
      AStep categories currentUserId st s { s with showConfirmation := false }

/-- Dialog states reachable from the mount state by UI events. -/
inductive AReachable (categories : List CategoryConfig) (currentUserId : String)
    (st : Ledger) (avail : Int) : AssignState → Prop
  | init : AReachable categories currentUserId st avail (initAssignState avail)
  | step {s t : AssignState} :
      AReachable categories currentUserId st avail s →
      AStep categories currentUserId st s t →
      AReachable categories currentUserId st avail t

/-- The report-row fields other than `pointsGiven`, used to state which part
of the report is a pure function of the assignment collection. -/
def rowWithoutGiven (r : ReportRow) :
    String × String × String × String × Int × Nat × List (String × Int) :=
  (r.userId, r.name, r.email, r.department, r.pointsReceived,
    r.recognitionCount, r.categoryBreakdown)
/- ### Basic lemmas about the association-list operations -/

theorem getUserAllocation_mem {l : List Allocation} {u m : String} {a : Allocation}
    (h : getUserAllocation l u m = some a) : a ∈ l ∧ a.userId = u ∧ a.month = m := by
  induction l with
  | nil => simp [getUserAllocation] at h
  | cons x rest ih =>
    by_cases hx : x.userId = u ∧ x.month = m
    · rw [getUserAllocation, if_pos hx] at h
      injection h with h2
      subst h2
      exact ⟨List.mem_cons_self x rest, hx⟩
    · rw [getUserAllocation, if_neg hx] at h
      rcases ih h with ⟨h1, h2⟩
      exact ⟨List.mem_cons_of_mem x h1, h2⟩

/-- Looking up the key of the updated record yields the new value. -/
theorem getUserAllocation_updateAllocation_self (l : List Allocation) (v : Allocation) :
    getUserAllocation (updateAllocation l v) v.userId v.month = some v := by
  induction l with
  | nil => simp [updateAllocation, getUserAllocation]
  | cons x rest ih =>
    by_cases hx : x.userId = v.userId ∧ x.month = v.month
    · rw [updateAllocation, if_pos hx, getUserAllocation, if_pos ⟨rfl, rfl⟩]
    · rw [updateAllocation, if_neg hx, getUserAllocation, if_neg hx]
      exact ih

/-- Looking up any other key is unchanged by the update. -/
theorem getUserAllocation_updateAllocation_other (l : List Allocation) (v : Allocation)
    {u m : String} (h : ¬(v.userId = u ∧ v.month = m)) :
    getUserAllocation (updateAllocation l v) u m = getUserAllocation l u m := by
  induction l with
  | nil =>
    simp only [updateAllocation, getUserAllocation, if_neg h]
  | cons x rest ih =>
    by_cases hx : x.userId = v.userId ∧ x.month = v.month
    · have hxu : ¬(x.userId = u ∧ x.month = m) := by
        rintro ⟨h1, h2⟩
        exact h ⟨hx.1 ▸ h1, hx.2 ▸ h2⟩
      rw [updateAllocation, if_pos hx, getUserAllocation, if_neg h,
        getUserAllocation, if_neg hxu]
    · rw [updateAllocation, if_neg hx]
      by_cases hxum : x.userId = u ∧ x.month = m
      · rw [getUserAllocation, if_pos hxum, getUserAllocation, if_pos hxum]
      · rw [getUserAllocation, if_neg hxum, getUserAllocation, if_neg hxum]
        exact ih

/-- Characterization of lookup after update. -/
theorem getUserAllocation_updateAllocation (l : List Allocation) (v : Allocation)
    (u m : String) :
    getUserAllocation (updateAllocation l v) u m =
      if v.userId = u ∧ v.month = m then some v else getUserAllocation l u m := by
  by_cases h : v.userId = u ∧ v.month = m
  · rw [if_pos h]
    rcases h with ⟨h1, h2⟩
    subst h1; subst h2
    exact getUserAllocation_updateAllocation_self l v
  · rw [if_neg h]
    exact getUserAllocation_updateAllocation_other l v h

/-- A member of the updated list is either the new value or an old member. -/
theorem mem_updateAllocation {l : List Allocation} {v x : Allocation}
    (h : x ∈ updateAllocation l v) : x = v ∨ x ∈ l := by
  induction l with
  | nil =>
    simp [updateAllocation] at h
    exact Or.inl h
  | cons y rest ih =>
    by_cases hy : y.userId = v.userId ∧ y.month = v.month
    · rw [updateAllocation, if_pos hy] at h
      rcases List.mem_cons.mp h with h1 | h1
      · exact Or.inl h1
      · exact Or.inr (List.mem_cons_of_mem y h1)
    · rw [updateAllocation, if_neg hy] at h
      rcases List.mem_cons.mp h with h1 | h1
      · exact Or.inr (h1 ▸ List.mem_cons_self y rest)
      · rcases ih h1 with h2 | h2
        · exact Or.inl h2
        · exact Or.inr (List.mem_cons_of_mem y h2)


/-- `validateForm` succeeds exactly when a user is selected, a category is
chosen, and the requested points do not exceed the available points. -/
theorem validateForm_spec (su : Option String) (cat : String) (P avail : Int) :
    validateForm su cat P avail = true ↔
      su ≠ none ∧ cat ≠ "" ∧ ¬ P > avail := by
  by_cases h1 : su = none <;> by_cases h2 : cat = "" <;> by_cases h3 : P > avail <;>
    simp [validateForm, formErrors, h1, h2, h3]

/-- Updating preserves key distinctness. -/
theorem nodupKeys_updateAllocation {l : List Allocation} (v : Allocation)
    (h : NoDupKeys l) : NoDupKeys (updateAllocation l v) := by
  induction l with
  | nil => simp [updateAllocation, NoDupKeys]
  | cons x rest ih =>
    rcases List.pairwise_cons.mp h with ⟨hx, hrest⟩
    by_cases hk : x.userId = v.userId ∧ x.month = v.month
    · rw [updateAllocation, if_pos hk]
      refine List.pairwise_cons.mpr ⟨?_, hrest⟩
      intro y hy hcon
      exact hx y hy ⟨hk.1 ▸ hcon.1, hk.2 ▸ hcon.2⟩
    · rw [updateAllocation, if_neg hk]
      refine List.pairwise_cons.mpr ⟨?_, ih hrest⟩
      intro y hy
      rcases mem_updateAllocation hy with h1 | h1
      · subst h1; exact hk
      · exact hx y h1

/-- With distinct keys, a member of the updated list is either the new value
or an old member whose key differs from the new value's key. -/
theorem mem_updateAllocation_nodup {l : List Allocation} {v x : Allocation}
    (hnd : NoDupKeys l) (h : x ∈ updateAllocation l v) :
    x = v ∨ (x ∈ l ∧ ¬(x.userId = v.userId ∧ x.month = v.month)) := by
  induction l with
  | nil =>
    simp [updateAllocation] at h
    exact Or.inl h
  | cons y rest ih =>
    rcases List.pairwise_cons.mp hnd with ⟨hy, hrest⟩
    by_cases hk : y.userId = v.userId ∧ y.month = v.month
    · rw [updateAllocation, if_pos hk] at h
      rcases List.mem_cons.mp h with h1 | h1
      · exact Or.inl h1
      · refine Or.inr ⟨List.mem_cons_of_mem y h1, ?_⟩
        intro hcon
        exact hy x h1 ⟨hk.1.trans hcon.1.symm, hk.2.trans hcon.2.symm⟩
    · rw [updateAllocation, if_neg hk] at h
      rcases List.mem_cons.mp h with h1 | h1
      · subst h1
        exact Or.inr ⟨List.mem_cons_self x rest, hk⟩
      · rcases ih hrest h1 with h2 | h2
        · exact Or.inl h2
        · exact Or.inr ⟨List.mem_cons_of_mem y h2.1, h2.2⟩

/-- A key present before an update is still present after it. -/
theorem isSome_getUserAllocation_updateAllocation {l : List Allocation}
    (v : Allocation) {u m : String}
    (h : (getUserAllocation l u m).isSome = true) :
    (getUserAllocation (updateAllocation l v) u m).isSome = true := by
  rw [getUserAllocation_updateAllocation]
  by_cases hk : v.userId = u ∧ v.month = m
  · rw [if_pos hk]; rfl
  · rw [if_neg hk]; exact h

/-- Appending one assignment adds its points to `sentSum` exactly at the
sender's key. -/
theorem sentSum_append_single (l : List Assignment) (r : Assignment) (u m : String) :
    sentSum (l ++ [r]) u m =
      sentSum l u m + (if r.fromUserId = u ∧ r.month = m then r.points else 0) := by
  by_cases h : r.fromUserId = u ∧ r.month = m <;>
    simp [sentSum, List.filter_append, h]

/-- Appending one assignment adds its points to `recvSum` exactly at the
receiver's key. -/
theorem recvSum_append_single (l : List Assignment) (r : Assignment) (u m : String) :
    recvSum (l ++ [r]) u m =
      recvSum l u m + (if r.toUserId = u ∧ r.month = m then r.points else 0) := by
  by_cases h : r.toUserId = u ∧ r.month = m <;>
    simp [recvSum, List.filter_append, h]

/-- A user without an allocation record is named as sender by no stored
assignment, provided every assignment's parties are allocated. -/
theorem sentSum_eq_zero {s : Ledger} (hPA : PartiesAllocated s) {u m : String}
    (h : getUserAllocation s.allocations u m = none) :
    sentSum s.assignments u m = 0 := by
  unfold sentSum
  have : s.assignments.filter (fun a => decide (a.fromUserId = u ∧ a.month = m)) = [] := by
    rw [List.filter_eq_nil_iff]
    intro a ha
    simp only [decide_eq_true_eq]
    rintro ⟨h1, h2⟩
    have := (hPA a ha).1
    rw [h1, h2, h] at this
    simp at this
  rw [this]
  simp

/-- A user without an allocation record is named as receiver by no stored
assignment, provided every assignment's parties are allocated. -/
theorem recvSum_eq_zero {s : Ledger} (hPA : PartiesAllocated s) {u m : String}
    (h : getUserAllocation s.allocations u m = none) :
    recvSum s.assignments u m = 0 := by
  unfold recvSum
  have : s.assignments.filter (fun a => decide (a.toUserId = u ∧ a.month = m)) = [] := by
    rw [List.filter_eq_nil_iff]
    intro a ha
    simp only [decide_eq_true_eq]
    rintro ⟨h1, h2⟩
    have := (hPA a ha).2
    rw [h1, h2, h] at this
    simp at this
  rw [this]
  simp

/-- `handleSubmit` with an empty category is a no-op. -/
theorem handleSubmit_empty_category (st : Ledger) (A : String) (su : Option String)
    (P : Int) (msg id : String) (ts : Int) (M : String) :
    handleSubmit st A su P "" msg id ts M = st := by
  cases su <;> simp [handleSubmit]

/-- Under the submit guard, the assignment record is appended regardless of
whether either party has an allocation record. -/
theorem handleSubmit_assignments_eq (st : Ledger) (A B : String) (P : Int)
    (cat msg id : String) (ts : Int) (M : String) (hcat : cat ≠ "") :
    (handleSubmit st A (some B) P cat msg id ts M).assignments =
      st.assignments ++ [⟨id, A, B, P, cat, trimmedMessage msg, ts, M⟩] := by
  simp only [handleSubmit, if_neg hcat, addAssignment]
  repeat' split
  all_goals rfl

/-- Explicit form of `handleSubmit` when both parties hold allocation records
for the month: the assignment is appended, the sender's record loses `P`
remaining points, the receiver's record gains `P` received points. -/
theorem handleSubmit_spec (st : Ledger) (A B : String) (P : Int) (cat msg id : String)
    (ts : Int) (M : String) (hcat : cat ≠ "") (hAB : B ≠ A)
    {sa rb : Allocation}
    (hsa : getUserAllocation st.allocations A M = some sa)
    (hrb : getUserAllocation st.allocations B M = some rb) :
    handleSubmit st A (some B) P cat msg id ts M =
      { users := st.users
        allocations :=
          updateAllocation
            (updateAllocation st.allocations
              { sa with pointsRemaining := sa.pointsRemaining - P })
            { rb with pointsReceived := rb.pointsReceived + P }
        assignments := st.assignments ++ [⟨id, A, B, P, cat, trimmedMessage msg, ts, M⟩] } := by
  have hsaK := getUserAllocation_mem hsa
  have hrb2 : getUserAllocation
      (updateAllocation st.allocations
        { sa with pointsRemaining := sa.pointsRemaining - P }) B M = some rb := by
    rw [getUserAllocation_updateAllocation, if_neg, hrb]
    rintro ⟨h1, h2⟩
    exact hAB (hsaK.2.1 ▸ h1 : A = B).symm
  simp only [handleSubmit, if_neg hcat, addAssignment]
  rw [show ({ st with assignments := st.assignments ++
      [⟨id, A, B, P, cat, trimmedMessage msg, ts, M⟩] } : Ledger).allocations =
        st.allocations from rfl]
  rw [hsa]
  dsimp only
  rw [hrb2]

/-- C8: `ensureMonthlyAllocation` never fails: when an allocation record for
`(userId, current month)` exists it returns that record and changes nothing;
otherwise it creates and returns a record with `pointsRemaining = 10` and
`pointsReceived = 0`, leaving every other allocation record unchanged; and
calling it twice in a row is equivalent to calling it once. -/
theorem C8_ensure_total_and_idempotent (allocs : List Allocation) (u M : String) :
    (∀ a, getUserAllocation allocs u M = some a →
      ensureMonthlyAllocation allocs u M = (a, allocs)) ∧
    (getUserAllocation allocs u M = none →
      (ensureMonthlyAllocation allocs u M).1 = ⟨u, M, 10, 0⟩ ∧
      getUserAllocation (ensureMonthlyAllocation allocs u M).2 u M =
        some ⟨u, M, 10, 0⟩ ∧
      (∀ v m, ¬(v = u ∧ m = M) →
        getUserAllocation (ensureMonthlyAllocation allocs u M).2 v m =
          getUserAllocation allocs v m)) ∧
    ensureMonthlyAllocation (ensureMonthlyAllocation allocs u M).2 u M =
      ((ensureMonthlyAllocation allocs u M).1, (ensureMonthlyAllocation allocs u M).2) := by
  refine ⟨?_, ?_, ?_⟩
  · intro a ha
    simp [ensureMonthlyAllocation, ha]
  · intro hn
    have hself :
        getUserAllocation (updateAllocation allocs ⟨u, M, 10, 0⟩) u M =
          some ⟨u, M, 10, 0⟩ :=
      getUserAllocation_updateAllocation_self allocs ⟨u, M, 10, 0⟩
    refine ⟨by simp [ensureMonthlyAllocation, hn], ?_, ?_⟩
    · simp only [ensureMonthlyAllocation, hn]
      exact hself
    · intro v m hvm
      simp only [ensureMonthlyAllocation, hn]
      exact getUserAllocation_updateAllocation_other allocs ⟨u, M, 10, 0⟩
        (by rintro ⟨h1, h2⟩; exact hvm ⟨h1.symm, h2.symm⟩)
  · cases ha : getUserAllocation allocs u M with
    | some a =>
      have h1 : ensureMonthlyAllocation allocs u M = (a, allocs) := by
        simp [ensureMonthlyAllocation, ha]
      rw [h1]
      simp [ensureMonthlyAllocation, ha]
    | none =>
      have hself :
          getUserAllocation (updateAllocation allocs ⟨u, M, 10, 0⟩) u M =
            some ⟨u, M, 10, 0⟩ :=
        getUserAllocation_updateAllocation_self allocs ⟨u, M, 10, 0⟩
      simp [ensureMonthlyAllocation, ha, hself]

/-- Witness for C8 at a concrete store: creating the missing allocation for
user `"1"` makes it retrievable. -/
theorem C8_witness :
    getUserAllocation (ensureMonthlyAllocation [] "1" "2025-01").2 "1" "2025-01" =
      some ⟨"1", "2025-01", 10, 0⟩ :=
  ((C8_ensure_total_and_idempotent [] "1" "2025-01").2.1 rfl).2.1

/-- C6: `getSystemConfig` back-fills a missing `onboardingSteps` with the
default four-step sequence, back-fills a missing `loginContent` and a missing
`emailNotifications` the same way, and returns every stored field unchanged
otherwise (in particular `categories` is never touched). -/
theorem C6_getSystemConfig_backfill (c : StoredSystemConfig) :
    (getSystemConfig (some c)).categories = c.categories ∧
    (getSystemConfig (some c)).onboardingSteps =
      (if c.onboardingSteps = none then getDefaultConfig.onboardingSteps
       else c.onboardingSteps) ∧
    (getSystemConfig (some c)).loginContent =
      (if c.loginContent = none then getDefaultConfig.loginContent
       else c.loginContent) ∧
    (getSystemConfig (some c)).emailNotifications =
      (if c.emailNotifications = none then getDefaultConfig.emailNotifications
       else c.emailNotifications) ∧
    (getDefaultConfig.onboardingSteps.map List.length) = some 4 := by
  refine ⟨?_, ?_, ?_, ?_, by simp [getDefaultConfig]⟩ <;>
    by_cases h1 : c.onboardingSteps = none <;>
    by_cases h2 : c.loginContent = none <;>
    by_cases h3 : c.emailNotifications = none <;>
    simp [getSystemConfig, h1, h2, h3]

/-- C2: a transfer attempt requesting more points than the sender's
available points is rejected by `validateForm`, so `handlePreview` does not
open the confirmation screen (the only path to `handleSubmit`), and the
ledger is untouched. -/
theorem C2_insufficient_points_rejected (s : AssignState) (st : Ledger)
    (h : s.points > s.availablePoints) :
    validateForm s.selectedUser s.category s.points s.availablePoints = false ∧
    (handlePreview s st).1.showConfirmation = s.showConfirmation ∧
    (handlePreview s st).2 = st := by
  have hv : validateForm s.selectedUser s.category s.points s.availablePoints = false := by
    rw [← Bool.not_eq_true, validateForm_spec]
    intro hcon
    exact hcon.2.2 h
  refine ⟨hv, ?_, ?_⟩ <;> simp [handlePreview, hv]

/-- Witness for C2: requesting 5 points with 3 available fails validation. -/
theorem C2_witness :
    validateForm (some "1") "Trabajo en equipo" 5 3 = false :=
  (C2_insufficient_points_rejected
    ⟨some "1", 5, "Trabajo en equipo", "", 3, false, []⟩ ⟨[], [], []⟩
    (by decide)).1

/-- C10: under the submit guard the assignment record is appended
unconditionally, before either allocation update; when the sender (resp. the
receiver) has no allocation record for the current month, that party's
allocation entries are left completely unchanged, so the recorded assignment
has no matching balance change. -/
theorem C10_submit_appends_without_allocation (st : Ledger) (A B : String)
    (P : Int) (cat msg id : String) (ts : Int) (M : String)
    (hcat : cat ≠ "") (hAB : B ≠ A) :
    (handleSubmit st A (some B) P cat msg id ts M).assignments =
      st.assignments ++ [⟨id, A, B, P, cat, trimmedMessage msg, ts, M⟩] ∧
    (getUserAllocation st.allocations A M = none →
      ∀ m, getUserAllocation (handleSubmit st A (some B) P cat msg id ts M).allocations A m =
        getUserAllocation st.allocations A m) ∧
    (getUserAllocation st.allocations B M = none →
      ∀ m, getUserAllocation (handleSubmit st A (some B) P cat msg id ts M).allocations B m =
        getUserAllocation st.allocations B m) := by
  refine ⟨handleSubmit_assignments_eq st A B P cat msg id ts M hcat, ?_, ?_⟩
  · intro hA m
    simp only [handleSubmit, if_neg hcat, addAssignment]
    rw [show ({ st with assignments := st.assignments ++
        [⟨id, A, B, P, cat, trimmedMessage msg, ts, M⟩] } : Ledger).allocations =
          st.allocations from rfl]
    rw [hA]
    dsimp only
    cases hB : getUserAllocation st.allocations B M with
    | some rb =>
      dsimp only
      have hk := getUserAllocation_mem hB
      exact getUserAllocation_updateAllocation_other st.allocations _
        (by rintro ⟨h1, h2⟩; exact hAB (hk.2.1 ▸ h1 : B = A))
    | none => rfl
  · intro hB m
    simp only [handleSubmit, if_neg hcat, addAssignment]
    rw [show ({ st with assignments := st.assignments ++
        [⟨id, A, B, P, cat, trimmedMessage msg, ts, M⟩] } : Ledger).allocations =
          st.allocations from rfl]
    cases hA : getUserAllocation st.allocations A M with
    | some sa =>
      dsimp only
      have hk := getUserAllocation_mem hA
      have hB2 : getUserAllocation
          (updateAllocation st.allocations
            { sa with pointsRemaining := sa.pointsRemaining - P }) B M = none := by
        rw [getUserAllocation_updateAllocation, if_neg, hB]
        rintro ⟨h1, h2⟩
        exact hAB ((hk.2.1 ▸ h1 : A = B)).symm
      rw [hB2]
      dsimp only
      exact getUserAllocation_updateAllocation_other st.allocations _
        (by rintro ⟨h1, h2⟩; exact hAB ((hk.2.1 ▸ h1 : A = B)).symm)
    | none =>
      dsimp only
      rw [hB]

/-- Witness for C10 on the empty store: the assignment is recorded while the
(empty) allocation collection is untouched. -/
theorem C10_witness :
    (handleSubmit ⟨[], [], []⟩ "2" (some "1") 3 "Trabajo en equipo" "" "x" 0
      "2025-01").assignments =
      [⟨"x", "2", "1", 3, "Trabajo en equipo", trimmedMessage "", 0, "2025-01"⟩] :=
  (C10_submit_appends_without_allocation ⟨[], [], []⟩ "2" "1" 3
    "Trabajo en equipo" "" "x" 0 "2025-01" (by decide) (by decide)).1

/-- C1: a transfer of `P` points from `A` to `B` in month `M` that passes
`validateForm`, where both parties hold allocation records, decreases
`pointsRemaining` of `(A, M)` by exactly `P`, increases `pointsReceived` of
`(B, M)` by exactly `P`, appends exactly one assignment record with
`fromUserId = A`, `toUserId = B`, `points = P` and the chosen category, and
changes no other allocation record. -/
theorem C1_valid_transfer_updates_ledger (st : Ledger) (A B : String) (P : Int)
    (cat msg id : String) (ts : Int) (M : String) (hAB : B ≠ A)
    (hval : validateForm (some B) cat P (availablePointsOf st.allocations A M) = true)
    (sa rb : Allocation)
    (hsa : getUserAllocation st.allocations A M = some sa)
    (hrb : getUserAllocation st.allocations B M = some rb) :
    getUserAllocation (handleSubmit st A (some B) P cat msg id ts M).allocations A M =
      some { sa with pointsRemaining := sa.pointsRemaining - P } ∧
    getUserAllocation (handleSubmit st A (some B) P cat msg id ts M).allocations B M =
      some { rb with pointsReceived := rb.pointsReceived + P } ∧
    (handleSubmit st A (some B) P cat msg id ts M).assignments =
      st.assignments ++ [⟨id, A, B, P, cat, trimmedMessage msg, ts, M⟩] ∧
    (∀ u m, ¬(u = A ∧ m = M) → ¬(u = B ∧ m = M) →
      getUserAllocation (handleSubmit st A (some B) P cat msg id ts M).allocations u m =
        getUserAllocation st.allocations u m) := by
  have hcat : cat ≠ "" := ((validateForm_spec _ _ _ _).mp hval).2.1
  have hsaK := getUserAllocation_mem hsa
  have hrbK := getUserAllocation_mem hrb
  rw [handleSubmit_spec st A B P cat msg id ts M hcat hAB hsa hrb]
  dsimp only
  refine ⟨?_, ?_, rfl, ?_⟩
  · rw [getUserAllocation_updateAllocation, if_neg, getUserAllocation_updateAllocation,
      if_pos ⟨hsaK.2.1, hsaK.2.2⟩]
    rintro ⟨h1, h2⟩
    exact hAB (hrbK.2.1 ▸ h1 : B = A)
  · rw [getUserAllocation_updateAllocation, if_pos ⟨hrbK.2.1, hrbK.2.2⟩]
  · intro u m hu hb
    rw [getUserAllocation_updateAllocation, if_neg, getUserAllocation_updateAllocation,
      if_neg]
    · rintro ⟨h1, h2⟩
      exact hu ⟨h1.symm.trans hsaK.2.1, h2.symm.trans hsaK.2.2⟩
    · rintro ⟨h1, h2⟩
      exact hb ⟨h1.symm.trans hrbK.2.1, h2.symm.trans hrbK.2.2⟩

/-- Witness for C1 on the seeded demo store: Juan (id 2, 7 points left) sends
1 point to María (id 1, 5 points received), leaving 6 remaining for Juan and
6 received for María. -/
theorem C1_witness :
    getUserAllocation (handleSubmit (seedState "2025-01" 0) "2" (some "1") 1
      "Liderazgo" "" "x" 0 "2025-01").allocations "2" "2025-01" =
      some ⟨"2", "2025-01", 6, 4⟩ :=
  (C1_valid_transfer_updates_ledger (seedState "2025-01" 0) "2" "1" 1
    "Liderazgo" "" "x" 0 "2025-01" (by decide) (by decide)
    ⟨"2", "2025-01", 7, 4⟩ ⟨"1", "2025-01", 8, 5⟩ (by decide) (by decide)).1

/-- `resetAlloc` never changes the record's key. -/
theorem resetAlloc_userId (a : Allocation) (t : Bool) :
    (resetAlloc a t).userId = a.userId := by
  cases t <;> rfl

/-- `resetAlloc` never changes the record's month. -/
theorem resetAlloc_month (a : Allocation) (t : Bool) :
    (resetAlloc a t).month = a.month := by
  cases t <;> rfl

/-- A user not in the selection is untouched by the reset loop. -/
theorem applyResets_find_of_not_mem (orig : List Allocation) (sel : List String)
    (total : Bool) (M : String) (cur : List Allocation) (u : String)
    (hu : u ∉ sel) :
    getUserAllocation (applyResets orig sel total M cur) u M =
      getUserAllocation cur u M := by
  induction sel generalizing cur with
  | nil => rfl
  | cons v rest ih =>
    have hvu : v ≠ u := fun h => hu (h ▸ List.mem_cons_self v rest)
    have hur : u ∉ rest := fun h => hu (List.mem_cons_of_mem v h)
    rw [applyResets]
    cases hv : getUserAllocation orig v M with
    | none => exact ih cur hur
    | some b =>
      dsimp only
      rw [ih _ hur]
      have hbK := getUserAllocation_mem hv
      have hkey : ¬((resetAlloc b total).userId = u ∧ (resetAlloc b total).month = M) := by
        rintro ⟨h1, h2⟩
        rw [resetAlloc_userId] at h1
        exact hvu (hbK.2.1.symm.trans h1)
      exact getUserAllocation_updateAllocation_other cur _ hkey

/-- A selected user with a record in the pre-loop snapshot ends the reset
loop with exactly the reset record. -/
theorem applyResets_find_of_mem (orig : List Allocation) (sel : List String)
    (total : Bool) (M : String) (cur : List Allocation) (u : String)
    (a : Allocation) (hu : u ∈ sel)
    (ha : getUserAllocation orig u M = some a) :
    getUserAllocation (applyResets orig sel total M cur) u M =
      some (resetAlloc a total) := by
  induction sel generalizing cur with
  | nil => cases hu
  | cons v rest ih =>
    have haK := getUserAllocation_mem ha
    by_cases hur : u ∈ rest
    · rw [applyResets]
      cases hv : getUserAllocation orig v M with
      | none => exact ih cur hur
      | some b => exact ih _ hur
    · have hvu : v = u := by
        rcases List.mem_cons.mp hu with h | h
        · exact h.symm
        · exact absurd h hur
      subst hvu
      rw [applyResets, ha]
      dsimp only
      rw [applyResets_find_of_not_mem orig rest total M _ v hur]
      have hk : (resetAlloc a total).userId = v ∧ (resetAlloc a total).month = M :=
        ⟨(resetAlloc_userId a total).trans haK.2.1,
          (resetAlloc_month a total).trans haK.2.2⟩
      rw [getUserAllocation_updateAllocation, if_pos hk]

/-- C5: an admin total reset in month `M`, for a selected user `u` holding an
allocation record, sets `pointsReceived` to 0 and `pointsRemaining` to 10,
removes every month-`M` assignment involving any selected user (in
particular all those involving `u`), and keeps every assignment of another
month or of month `M` that involves no selected user. -/
theorem C5_total_reset (st : Ledger) (sel : List String) (M : String)
    (u : String) (a : Allocation) (hu : u ∈ sel)
    (ha : getUserAllocation st.allocations u M = some a) :
    getUserAllocation (handleResetPoints st sel true M).allocations u M =
      some { a with pointsRemaining := 10, pointsReceived := 0 } ∧
    (∀ r ∈ (handleResetPoints st sel true M).assignments,
      r.month = M → r.fromUserId ≠ u ∧ r.toUserId ≠ u) ∧
    (∀ r ∈ st.assignments,
      r.month ≠ M ∨ (r.toUserId ∉ sel ∧ r.fromUserId ∉ sel) →
        r ∈ (handleResetPoints st sel true M).assignments) ∧
    (∀ r ∈ (handleResetPoints st sel true M).assignments, r ∈ st.assignments) := by
  have hne : sel ≠ [] := fun h => by rw [h] at hu; cases hu
  refine ⟨?_, ?_, ?_, ?_⟩
  · rw [handleResetPoints, if_neg hne]
    dsimp only
    have := applyResets_find_of_mem st.allocations sel true M st.allocations u a hu ha
    rw [this]
    rfl
  · intro r hr hrM
    rw [handleResetPoints, if_neg hne] at hr
    dsimp only at hr
    rw [if_pos rfl] at hr
    rcases List.mem_filter.mp hr with ⟨hmem, hcond⟩
    simp [hrM] at hcond
    rcases hcond with ⟨h1m, h2m⟩
    exact ⟨fun h => h2m (h ▸ hu), fun h => h1m (h ▸ hu)⟩
  · intro r hr hcond
    rw [handleResetPoints, if_neg hne]
    dsimp only
    rw [if_pos rfl]
    refine List.mem_filter.mpr ⟨hr, ?_⟩
    rcases hcond with h | ⟨h1, h2⟩
    · simp [h]
    · simp [h1, h2]
  · intro r hr
    rw [handleResetPoints, if_neg hne] at hr
    dsimp only at hr
    rw [if_pos rfl] at hr
    exact (List.mem_filter.mp hr).1

/-- Witness for C5 on the seeded demo store: a total reset of María (id 1)
restores her allocation to 10 remaining / 0 received. -/
theorem C5_witness :
    getUserAllocation (handleResetPoints (seedState "2025-01" 0) ["1"] true
      "2025-01").allocations "1" "2025-01" =
      some ⟨"1", "2025-01", 10, 0⟩ :=
  (C5_total_reset (seedState "2025-01" 0) ["1"] "2025-01" "1"
    ⟨"1", "2025-01", 8, 5⟩ (by decide) (by decide)).1

/-- C7 counterexample: the seeded superadmin logs in with
`admin@sistema.local`, an email that does not end in `@grupoprominente.com`
— `handleLogin` calls `onLogin` with the admin user and creates an
allocation, with no error message. -/
theorem C7_counterexample :
    strEndsWith "admin@sistema.local" "@grupoprominente.com" = false ∧
    (handleLogin demoUsers [] "2025-01" "admin@sistema.local").1 =
      some ⟨"admin", "Admin Sistema", "admin@sistema.local", Role.superadmin,
        "Administración"⟩ ∧
    (handleLogin demoUsers [] "2025-01" "admin@sistema.local").2.1 =
      [⟨"admin", "2025-01", 10, 0⟩] ∧
    (handleLogin demoUsers [] "2025-01" "admin@sistema.local").2.2 = none := by
  decide

/-- C7 amended: a login attempt with an email that does not end in
`@grupoprominente.com`, when no stored user with a matching email is a
superadmin, is rejected with the inline corporate-email error: `onLogin` is
not called and the allocation list is unchanged. -/
theorem C7_noncorporate_login_rejected (users : List User) (allocs : List Allocation)
    (M email : String)
    (hdom : strEndsWith email "@grupoprominente.com" = false)
    (hsa : ∀ u ∈ users, lowerStr u.email = lowerStr email → u.role ≠ Role.superadmin) :
    (handleLogin users allocs M email).1 = none ∧
    (handleLogin users allocs M email).2.1 = allocs ∧
    (handleLogin users allocs M email).2.2 =
      some "Debes usar tu correo corporativo (@grupoprominente.com)" := by
  unfold handleLogin
  cases hf : users.find? (fun u => lowerStr u.email == lowerStr email) with
  | none => simp [hdom]
  | some u =>
    have hpred : lowerStr u.email = lowerStr email := by
      simpa using List.find?_some hf
    have hmem : u ∈ users := List.mem_of_find?_eq_some hf
    have hrole : u.role ≠ Role.superadmin := hsa u hmem hpred
    simp [hdom, hrole]

/-- Witness for C7 amended: a gmail address is rejected against the demo
user list. -/
theorem C7_witness :
    (handleLogin demoUsers [] "2025-01" "maria@gmail.com").1 = none :=
  (C7_noncorporate_login_rejected demoUsers [] "2025-01" "maria@gmail.com"
    (by decide) (by decide)).1

/-- C9 counterexample: two stores with identical (empty) assignment
collections but different allocation collections produce different report
rows — `pointsGiven` is `10 - pointsRemaining`, read from the allocations. -/
theorem C9_counterexample :
    loadData demoUsers [] [⟨"1", "2025-01", 7, 0⟩] "2025-01" ≠
      loadData demoUsers [] [⟨"1", "2025-01", 10, 0⟩] "2025-01" := by
  decide

/-- C9 amended: for a fixed user list and month, all report-row fields other
than `pointsGiven` — and the category totals — depend only on the assignment
collection; `pointsGiven` reads the sender's allocation record
(`10 - pointsRemaining`, 0 when absent) and may differ between stores with
identical assignments. -/
theorem C9_report_pure_in_assignments (users : List User)
    (assignments : List Assignment) (allocs1 allocs2 : List Allocation)
    (M : String) :
    ((loadData users assignments allocs1 M).1.map rowWithoutGiven =
      (loadData users assignments allocs2 M).1.map rowWithoutGiven) ∧
    (loadData users assignments allocs1 M).2 =
      (loadData users assignments allocs2 M).2 := by
  refine ⟨?_, rfl⟩
  simp only [loadData, List.map_map]
  rfl

/-- C4 counterexample: `validateForm` does not consult the category
configuration — a non-empty category that is disabled in the configuration
still passes validation (the rejection claimed by the spec does not come
from `validateForm`). -/
theorem C4_counterexample :
    validateForm (some "1") "Liderazgo" 1 5 = true ∧
    "Liderazgo" ∉ (enabledCategoriesOf
      [⟨"Trabajo en equipo", true⟩, ⟨"Liderazgo", false⟩]).map
        CategoryConfig.name := by
  decide

/-- C4 amended: a transfer with a disabled category cannot occur, but not
because `validateForm` checks enabledness — the category select lists only
the enabled categories, so every reachable dialog state carries either the
empty category or an enabled one, and with the empty category `handleSubmit`
leaves the ledger untouched (and `validateForm` rejects it). -/
theorem C4_reachable_category_enabled (categories : List CategoryConfig)
    (currentUserId : String) (st : Ledger) (avail : Int) (s : AssignState)
    (h : AReachable categories currentUserId st avail s) :
    (s.category = "" ∨
      s.category ∈ (enabledCategoriesOf categories).map CategoryConfig.name) ∧
    (s.category = "" →
      (∀ P msg id ts M, handleSubmit st currentUserId s.selectedUser P s.category
        msg id ts M = st) ∧
      validateForm s.selectedUser s.category s.points s.availablePoints = false) := by
  constructor
  · induction h with
    | init => exact Or.inl rfl
    | step hr hs ih =>
      cases hs with
      | selectUser uid huid hne => exact ih
      | clearUser => exact ih
      | setPoints p hp hle => exact ih
      | setCategory c hc => exact Or.inr hc
      | setMessage msg => exact ih
      | preview =>
        rw [handlePreview]
        split <;> exact ih
      | back => exact ih
  · intro hcat
    refine ⟨fun P msg id ts M => ?_, ?_⟩
    · rw [hcat]
      exact handleSubmit_empty_category st currentUserId s.selectedUser P msg id ts M
    · rw [← Bool.not_eq_true, validateForm_spec]
      intro hcon
      exact hcon.2.1 hcat

/-- Witness for C4 amended at the mount state of the dialog under the
default category configuration. -/
theorem C4_witness :
    (initAssignState 10).category = "" ∨
      (initAssignState 10).category ∈
        (enabledCategoriesOf getDefaultConfig.categories).map CategoryConfig.name :=
  (C4_reachable_category_enabled getDefaultConfig.categories "2" ⟨[], [], []⟩ 10
    (initAssignState 10) AReachable.init).1

/-- The seeded allocation list, computed out for an arbitrary current month:
Juan (2) gave 3, María (1) gave 2 and received 5, Carlos (4) gave 2 and
received 2, Laura (5) gave 4. -/
theorem seed_allocations_eq (M : String) (now : Int) :
    (seedState M now).allocations = seedAllocations M := by
  simp [seedState, demoUsers, demoAssignments, ensureMonthlyAllocation,
    getUserAllocation, updateAllocation, applySeedAssignment, seedAllocations]

/-- The seeded assignments are the four demo assignments. -/
theorem seed_assignments_eq (M : String) (now : Int) :
    (seedState M now).assignments = demoAssignments M now := rfl

/-- The seeded demo store satisfies the three ledger invariants. -/
theorem ledgerInvariants_seed (M : String) (now : Int) :
    LedgerInvariants (seedState M now) := by
  simp [LedgerInvariants, seedState, demoUsers, demoAssignments,
    ensureMonthlyAllocation, getUserAllocation, updateAllocation,
    applySeedAssignment, sentSum, recvSum]

/-- The seeded demo store has pairwise distinct allocation keys. -/
theorem noDupKeys_seed (M : String) (now : Int) :
    NoDupKeys (seedState M now).allocations := by
  rw [seed_allocations_eq M now]
  simp [NoDupKeys, seedAllocations, List.pairwise_cons]

/-- Every party of a seeded assignment holds a seeded allocation record. -/
theorem partiesAllocated_seed (M : String) (now : Int) :
    PartiesAllocated (seedState M now) := by
  unfold PartiesAllocated
  rw [seed_assignments_eq M now, seed_allocations_eq M now]
  simp [demoAssignments, seedAllocations, getUserAllocation]

/-- The seeded demo store satisfies the auxiliary inductive invariant. -/
theorem goodInv_seed (M : String) (now : Int) : GoodInv (seedState M now) :=
  ⟨noDupKeys_seed M now, ledgerInvariants_seed M now, partiesAllocated_seed M now⟩

/-- An update whose new value has non-negative remaining points preserves
non-negativity of the whole list. -/
theorem nonneg_updateAllocation {l : List Allocation} {v : Allocation}
    (hl : ∀ x ∈ l, 0 ≤ x.pointsRemaining) (hv : 0 ≤ v.pointsRemaining) :
    ∀ x ∈ updateAllocation l v, 0 ≤ x.pointsRemaining := by
  intro x hx
  rcases mem_updateAllocation hx with h | h
  · exact h ▸ hv
  · exact hl x h

/-- `resetAlloc` keeps the remaining points non-negative. -/
theorem resetAlloc_nonneg {b : Allocation} (hb : 0 ≤ b.pointsRemaining) (t : Bool) :
    0 ≤ (resetAlloc b t).pointsRemaining := by
  cases t
  · simpa [resetAlloc] using hb
  · norm_num [resetAlloc]

/-- The reset loop preserves non-negativity of the remaining points. -/
theorem nonneg_applyResets (orig : List Allocation) (sel : List String)
    (total : Bool) (M : String) (cur : List Allocation)
    (horig : ∀ x ∈ orig, 0 ≤ x.pointsRemaining)
    (hcur : ∀ x ∈ cur, 0 ≤ x.pointsRemaining) :
    ∀ x ∈ applyResets orig sel total M cur, 0 ≤ x.pointsRemaining := by
  induction sel generalizing cur with
  | nil => exact hcur
  | cons v rest ih =>
    rw [applyResets]
    cases hv : getUserAllocation orig v M with
    | none => exact ih cur hcur
    | some b =>
      have hb : 0 ≤ b.pointsRemaining := horig b (getUserAllocation_mem hv).1
      exact ih _ (nonneg_updateAllocation hcur (resetAlloc_nonneg hb total))

/-- A validated submit preserves non-negative remaining points. -/
theorem nonneg_handleSubmit (st : Ledger) (A B : String) (P : Int)
    (cat msg id : String) (ts : Int) (M : String)
    (hval : validateForm (some B) cat P (availablePointsOf st.allocations A M) = true)
    (h : NonnegRemaining st) :
    NonnegRemaining (handleSubmit st A (some B) P cat msg id ts M) := by
  obtain ⟨-, hcat, hle⟩ := (validateForm_spec _ _ _ _).mp hval
  simp only [handleSubmit, if_neg hcat, addAssignment]
  rw [show ({ st with assignments := st.assignments ++
      [⟨id, A, B, P, cat, trimmedMessage msg, ts, M⟩] } : Ledger).allocations =
        st.allocations from rfl]
  cases hsa : getUserAllocation st.allocations A M with
  | none =>
    dsimp only
    cases hrb : getUserAllocation st.allocations B M with
    | none => exact h
    | some rb =>
      dsimp only [NonnegRemaining]
      exact nonneg_updateAllocation h (h rb (getUserAllocation_mem hrb).1)
  | some sa =>
    rw [availablePointsOf, hsa] at hle
    have hsa2 : (0:Int) ≤ sa.pointsRemaining - P := by dsimp only at hle; omega
    dsimp only
    have h1 : ∀ x ∈ updateAllocation st.allocations
        { sa with pointsRemaining := sa.pointsRemaining - P }, 0 ≤ x.pointsRemaining :=
      nonneg_updateAllocation h hsa2
    cases hrb : getUserAllocation (updateAllocation st.allocations
        { sa with pointsRemaining := sa.pointsRemaining - P }) B M with
    | none => exact h1
    | some rb =>
      dsimp only [NonnegRemaining]
      exact nonneg_updateAllocation h1 (h1 rb (getUserAllocation_mem hrb).1)

/-- Every program operation preserves non-negative remaining points. -/
theorem nonneg_step {M : String} {s t : Ledger} (hs : Step M s t)
    (h : NonnegRemaining s) : NonnegRemaining t := by
  cases hs with
  | transfer A B P cat msg id ts hA hB hAB hP hval =>
    exact nonneg_handleSubmit s A B P cat msg id ts M hval h
  | ensure u =>
    cases hfind : getUserAllocation s.allocations u M with
    | some a =>
      dsimp only [NonnegRemaining]
      simp only [ensureMonthlyAllocation, hfind]
      exact h
    | none =>
      dsimp only [NonnegRemaining]
      simp only [ensureMonthlyAllocation, hfind]
      exact nonneg_updateAllocation h (by norm_num)
  | resetRecv sel =>
    rw [handleResetPoints]
    split
    · exact h
    · dsimp only [NonnegRemaining]
      exact nonneg_applyResets s.allocations sel false M s.allocations h h
  | resetAll sel =>
    rw [handleResetPoints]
    split
    · exact h
    · dsimp only [NonnegRemaining]
      exact nonneg_applyResets s.allocations sel true M s.allocations h h

/-- Non-negativity of the remaining points holds in every reachable state. -/
theorem nonneg_reachable {M : String} {now : Int} {s : Ledger}
    (h : Reachable M now s) : NonnegRemaining s := by
  induction h with
  | init => exact fun a ha => ((ledgerInvariants_seed M now) a ha).1
  | step hr hs ih => exact nonneg_step hs ih

/-- A validated submit between two distinct allocated parties preserves the
auxiliary invariant: key distinctness, the three ledger equations, and
allocation records for every assignment party. -/
theorem goodInv_transfer (st : Ledger) (A B : String) (P : Int)
    (cat msg id : String) (ts : Int) (M : String) (hAB : B ≠ A)
    (hP : P = 1 ∨ P = 2 ∨ P = 3 ∨ P = 5)
    (hval : validateForm (some B) cat P (availablePointsOf st.allocations A M) = true)
    (hRecv : (getUserAllocation st.allocations B M).isSome = true)
    (hinv : GoodInv st) :
    GoodInv (handleSubmit st A (some B) P cat msg id ts M) := by
  obtain ⟨hnd, hinvL, hPA⟩ := hinv
  obtain ⟨-, hcat, hle⟩ := (validateForm_spec _ _ _ _).mp hval
  obtain ⟨rb, hrb⟩ := Option.isSome_iff_exists.mp hRecv
  cases hsa : getUserAllocation st.allocations A M with
  | none =>
    rw [availablePointsOf, hsa] at hle
    dsimp only at hle
    rcases hP with h | h | h | h <;> omega
  | some sa =>
    have hsaK := getUserAllocation_mem hsa
    have hrbK := getUserAllocation_mem hrb
    rw [availablePointsOf, hsa] at hle
    dsimp only at hle
    rw [handleSubmit_spec st A B P cat msg id ts M hcat hAB hsa hrb]
    have hnd1 : NoDupKeys (updateAllocation st.allocations
        { sa with pointsRemaining := sa.pointsRemaining - P }) :=
      nodupKeys_updateAllocation _ hnd
    refine ⟨nodupKeys_updateAllocation _ hnd1, ?_, ?_⟩
    · intro x hx
      dsimp only at hx ⊢
      rcases mem_updateAllocation_nodup hnd1 hx with hxe | ⟨hx1, hxk⟩
      · subst hxe
        dsimp only
        obtain ⟨hn, hs, hr⟩ := hinvL rb hrbK.1
        refine ⟨hn, ?_, ?_⟩
        · rw [sentSum_append_single, if_neg, add_zero]
          · exact hs
          · dsimp only
            rintro ⟨h1, h2⟩
            exact hAB (hrbK.2.1 ▸ h1 : A = B).symm
        · rw [recvSum_append_single, if_pos ⟨hrbK.2.1.symm, hrbK.2.2.symm⟩, hr]
      · rcases mem_updateAllocation_nodup hnd hx1 with hxe2 | ⟨hx2, hxk2⟩
        · subst hxe2
          dsimp only
          obtain ⟨hn, hs, hr⟩ := hinvL sa hsaK.1
          refine ⟨by omega, ?_, ?_⟩
          · rw [sentSum_append_single, if_pos ⟨hsaK.2.1.symm, hsaK.2.2.symm⟩]
            dsimp only
            omega
          · rw [recvSum_append_single, if_neg, add_zero]
            · exact hr
            · dsimp only
              rintro ⟨h1, h2⟩
              exact hAB (h1.trans hsaK.2.1)
        · obtain ⟨hn, hs, hr⟩ := hinvL x hx2
          refine ⟨hn, ?_, ?_⟩
          · rw [sentSum_append_single, if_neg, add_zero]
            · exact hs
            · rintro ⟨h1, h2⟩
              exact hxk2 ⟨h1.symm.trans hsaK.2.1.symm, h2.symm.trans hsaK.2.2.symm⟩
          · rw [recvSum_append_single, if_neg, add_zero]
            · exact hr
            · rintro ⟨h1, h2⟩
              exact hxk ⟨h1.symm.trans hrbK.2.1.symm, h2.symm.trans hrbK.2.2.symm⟩
    · intro r hr2
      dsimp only at hr2 ⊢
      rcases List.mem_append.mp hr2 with h | h
      · obtain ⟨h1, h2⟩ := hPA r h
        exact ⟨isSome_getUserAllocation_updateAllocation _
            (isSome_getUserAllocation_updateAllocation _ h1),
          isSome_getUserAllocation_updateAllocation _
            (isSome_getUserAllocation_updateAllocation _ h2)⟩
      · rw [List.mem_singleton] at h
        subst h
        dsimp only
        constructor
        · apply isSome_getUserAllocation_updateAllocation
          apply isSome_getUserAllocation_updateAllocation
          rw [hsa]; rfl
        · apply isSome_getUserAllocation_updateAllocation
          apply isSome_getUserAllocation_updateAllocation
          rw [hrb]; rfl

/-- Lazy allocation creation preserves the auxiliary invariant. -/
theorem goodInv_ensure (st : Ledger) (u M : String) (hinv : GoodInv st) :
    GoodInv { st with allocations := (ensureMonthlyAllocation st.allocations u M).2 } := by
  obtain ⟨hnd, hinvL, hPA⟩ := hinv
  cases hfind : getUserAllocation st.allocations u M with
  | some a =>
    simp only [ensureMonthlyAllocation, hfind]
    exact ⟨hnd, hinvL, hPA⟩
  | none =>
    simp only [ensureMonthlyAllocation, hfind]
    refine ⟨nodupKeys_updateAllocation _ hnd, ?_, ?_⟩
    · intro x hx
      dsimp only at hx ⊢
      rcases mem_updateAllocation hx with hxe | hx1
      · subst hxe
        dsimp only
        refine ⟨by norm_num, ?_, ?_⟩
        · rw [sentSum_eq_zero hPA hfind, add_zero]
        · rw [recvSum_eq_zero hPA hfind]
      · exact hinvL x hx1
    · intro r hr
      dsimp only at hr ⊢
      obtain ⟨h1, h2⟩ := hPA r hr
      exact ⟨isSome_getUserAllocation_updateAllocation _ h1,
        isSome_getUserAllocation_updateAllocation _ h2⟩

/-- Every benign operation preserves the auxiliary invariant. -/
theorem goodInv_goodStep {M : String} {s t : Ledger} (hs : GoodStep M s t)
    (h : GoodInv s) : GoodInv t := by
  cases hs with
  | transfer A B P cat msg id ts hAB hP hval hRecv =>
    exact goodInv_transfer s A B P cat msg id ts M hAB hP hval hRecv h
  | ensure u => exact goodInv_ensure s u M h

/-- The auxiliary invariant holds in every state reachable by the benign
operations. -/
theorem goodInv_goodReachable {M : String} {now : Int} {s : Ledger}
    (h : GoodReachable M now s) : GoodInv s := by
  induction h with
  | init => exact goodInv_seed M now
  | step hr hs ih => exact goodInv_goodStep hs ih

/-- C3 counterexample, as the claim is stated: a partial admin reset of
María (user 1) is one program operation from the seeded state, and the
resulting state violates the ledger invariants — her `pointsReceived`
becomes 0 while the month's assignments still credit her 5 points. -/
theorem C3_counterexample :
    Reachable "2025-01" 0
      (handleResetPoints (seedState "2025-01" 0) ["1"] false "2025-01") ∧
    ¬ LedgerInvariants
      (handleResetPoints (seedState "2025-01" 0) ["1"] false "2025-01") :=
  ⟨Reachable.step Reachable.init (Step.resetRecv _ ["1"]), by decide⟩

/-- C3 amended: over all program operations only `pointsRemaining ≥ 0`
survives; the two summation invariants hold for every state reachable by
the benign operations (validated transfers whose receiver also holds an
allocation record, and lazy allocation creation), while the admin resets
break them. -/
theorem C3_reachable_invariants (M : String) (now : Int) :
    (∀ s, Reachable M now s → NonnegRemaining s) ∧
    (∀ s, GoodReachable M now s → LedgerInvariants s) :=
  ⟨fun _ h => nonneg_reachable h, fun _ h => (goodInv_goodReachable h).2.1⟩

/-- Witness for C3 amended: the seeded state itself satisfies the full
ledger invariants. -/
theorem C3_witness : LedgerInvariants (seedState "2025-01" 0) :=
  (C3_reachable_invariants "2025-01" 0).2 (seedState "2025-01" 0) GoodReachable.init
